import Mathlib

/-!
Verification of the incremental table exporter in src/export.py.

The script exports rows of a MySQL table to a CSV file page by page
(pages of BATCH_SIZE rows, each page selected with
SELECT * FROM b_crm_timeline WHERE ID > last ORDER BY ID LIMIT batch),
uploads the CSV over SCP, and only then persists the highest exported ID
in last_id.txt.  This file embeds that logic shallowly: the database
table is a list of rows, the filesystem effects (checkpoint file, CSV
artifact) are explicit values, the SCP upload and a mid-run database
failure are boolean/schedule parameters, and the while-loop is a
fuel-indexed structural recursion.
-/

/-- A row of the table, i.e. one Python dict produced by the dictionary
cursor: an ordered list of (column name, value) pairs.  The script reads
the row itself (written to CSV), its key list (CSV header) and the
integer value of its ID column; the latter is carried directly in the
field `id`. -/
structure Row where
  id : Int
  cols : List (String × String)
deriving DecidableEq, Repr

/-- Column names of a row, in dict order: models rows[0].keys() at
src/export.py line 138. -/
def Row.keys (r : Row) : List String :=
  r.cols.map Prod.fst

/-- One line of the CSV artifact: either the header row written by
writer.writeheader() or a data row written by writer.writerows(rows). -/
inductive Line where
  | header (fields : List String)
  | data (r : Row)
deriving DecidableEq, Repr

/-- Whether a CSV line is the header line. -/
def Line.isHeader : Line → Bool
  | .header _ => true
  | .data _ => false

/-- Python str.strip() on the character list of a string: drop
whitespace from both ends. -/
def stripChars (cs : List Char) : List Char :=
  ((cs.dropWhile Char.isWhitespace).reverse.dropWhile Char.isWhitespace).reverse

/-- Python str.strip(), as used in read_last_id (src/export.py line 76). -/
def pyStrip (s : String) : String :=
  String.mk (stripChars s.data)

/-- Numeric value of a decimal digit character. -/
def digitVal (c : Char) : Nat :=
  c.toNat - 48

/-- Helper for the decimal printing of a natural number; the first
argument is recursion fuel (any fuel larger than the number suffices). -/
def natDigitsAux : Nat → Nat → List Char
  | 0, _ => []
  | fuel + 1, m =>
    if m < 10 then [Nat.digitChar m]
    else natDigitsAux fuel (m / 10) ++ [Nat.digitChar (m % 10)]

/-- Decimal digits of a natural number, most significant first. -/
def natDigits (m : Nat) : List Char :=
  natDigitsAux (m + 1) m

/-- Python str() on an integer: an optional minus sign followed by the
decimal digits.  Used by write_last_id (src/export.py line 81). -/
def pyStr (n : Int) : String :=
  if n < 0 then String.mk ('-' :: natDigits n.natAbs) else String.mk (natDigits n.toNat)

/-- Validity of the tail of a decimal literal for Python int(): every
character is a digit or an underscore, underscores are single and occur
only between digits.  The flag records whether the previous character
was an underscore. -/
def validUTail : Bool → List Char → Bool
  | afterU, [] => !afterU
  | afterU, c :: cs =>
    if c.isDigit then validUTail false cs
    else if c = '_' then !afterU && validUTail true cs
    else false

/-- Python int() on an unsigned decimal literal: a nonempty digit
string, possibly with single underscores between digits; none on
anything else. -/
def pyDigits? (cs : List Char) : Option Nat :=
  match cs with
  | [] => none
  | c :: rest =>
    if c.isDigit && validUTail false rest then
      some (((c :: rest).filter (fun d => !(d == '_'))).foldl (fun a d => 10 * a + digitVal d) 0)
    else none

/-- Python int() on the character list of a stripped string: an
optional sign followed by an unsigned decimal literal; none when int()
would raise ValueError. -/
def pyIntChars? (cs : List Char) : Option Int :=
  match cs with
  | [] => none
  | c :: rest =>
    if c = '-' then (pyDigits? rest).map (fun m => -(m : Int))
    else if c = '+' then (pyDigits? rest).map (fun m => (m : Int))
    else (pyDigits? (c :: rest)).map (fun m => (m : Int))

/-- Python int() on a string. -/
def pyInt? (s : String) : Option Int :=
  pyIntChars? s.data

/-- The function read_last_id (src/export.py lines 73-78).  The argument
is the content of last_id.txt (none when the file is absent).  The body
is int(text.strip()); the surrounding try/except turns every failure
(missing file, empty or unparseable content) into 0. -/
def read_last_id (file : Option String) : Int :=
  match file with
  | none => 0
  | some s => (pyInt? (pyStrip s)).getD 0

/-- The function write_last_id (src/export.py lines 80-81): the content
of last_id.txt after LAST_ID_FILE.write_text(str(last_id)). -/
def write_last_id (lastId : Int) : Option String :=
  some (pyStr lastId)

/-- Observable contents of last_id.txt while write_last_id runs.
Path.write_text opens the file with mode w, which truncates it, and
then writes the whole string: a concurrent reader can observe the
pre-call content, the truncated empty file, and the final content.
There is no write-to-temporary-then-rename step in the source. -/
def write_last_id_states (prev : Option String) (lastId : Int) : List (Option String) :=
  [prev, some (String.mk []), write_last_id lastId]

/-- One pagination query (src/export.py lines 122-132):
SELECT * FROM b_crm_timeline WHERE ID > lastId ORDER BY ID LIMIT n,
then fetchall().  The WHERE clause is the filter, ORDER BY is a stable
sort on the ID value, LIMIT is take. -/
def fetchPage (table : List Row) (lastId : Int) (n : Nat) : List Row :=
  ((table.filter (fun r => decide (lastId < r.id))).insertionSort
    (fun a b => a.id ≤ b.id)).take n

/-- State of the export loop when it stops: the list of (lower bound,
page) pairs passed to and returned by cur.execute/fetchall, the
DictWriter field names (none while writer is None), the lines written
to the CSV file, and the counters total_exported and new_last_id. -/
structure LoopOut where
  fetches : List (Int × List Row)
  writer : Option (List String)
  file : List Line
  total : Nat
  newLast : Int
deriving DecidableEq, Repr

/-- Result of the while-loop of export(): either it broke out of the
loop on an empty page, or cur.execute raised a database error, leaving
the partially written file behind. -/
inductive LoopResult where
  | ok (st : LoopOut)
  | dsError (st : LoopOut)
deriving DecidableEq, Repr

/-- The while-loop of export() (src/export.py lines 121-148), as a
fuel-indexed recursion (none = fuel exhausted; the loop itself has no
other exit than the empty page or an exception).  Arguments after the
fuel: the number of cur.execute calls made so far (the schedule ds
makes the call with that index raise, modelling a data-source error),
then the mutable state last_id, writer, the CSV file lines, the fetch
trace, total_exported and new_last_id.  Each iteration runs the query;
an empty result breaks the loop; otherwise the header is written first
if writer is still None, the page rows are appended to the file, and
last_id and new_last_id both become the ID of the last row of the
page. -/
def exportLoop (table : List Row) (n : Nat) (ds : Option Nat) :
    Nat → Nat → Int → Option (List String) → List Line →
    List (Int × List Row) → Nat → Int → Option LoopResult
  | 0, _, _, _, _, _, _, _ => none
  | fuel + 1, k, lastId, writer, file, fetches, total, newLast =>
    if ds = some k then
      some (LoopResult.dsError ⟨fetches, writer, file, total, newLast⟩)
    else
      match fetchPage table lastId n with
      | [] => some (LoopResult.ok ⟨fetches ++ [(lastId, [])], writer, file, total, newLast⟩)
      | r :: rs =>
        exportLoop table n ds fuel (k + 1)
          (((r :: rs).getLast (List.cons_ne_nil r rs)).id)
          (some (writer.getD r.keys))
          ((if writer.isNone then file ++ [Line.header r.keys] else file)
            ++ (r :: rs).map Line.data)
          (fetches ++ [(lastId, r :: rs)])
          (total + (r :: rs).length)
          (((r :: rs).getLast (List.cons_ne_nil r rs)).id)

/-- Observable outcome of one invocation of the script: the process
exit code (0 on success, 1 when the exception handler at
src/export.py lines 166-171 fires), the content of last_id.txt after
the run, whether write_last_id was executed, the number of scp.put
calls, the CSV artifact on disk (none would mean no file; the script
creates the file when it opens it for writing), the fetch trace and
the final counters, and whether a data-source error was raised. -/
structure RunOutcome where
  exitCode : Nat
  ckpt : Option String
  ckptWritten : Bool
  transferCalls : Nat
  artifactOnDisk : Option (List Line)
  fetches : List (Int × List Row)
  total : Nat
  newLast : Int
  dsErrored : Bool
deriving DecidableEq, Repr, Inhabited

/-- The function export() together with the __main__ handler
(src/export.py lines 104-171).  Parameters beyond the code's own state:
ds schedules a database failure at the given execute call, tOk tells
whether scp.put succeeds, fuel bounds the loop (none = not enough
fuel), ck is the content of last_id.txt before the run.  The CSV file
is created (empty) when it is opened, before the first query.  After
the loop: zero exported rows return early with nothing transferred and
the checkpoint untouched; otherwise the file is uploaded, and only on
upload success is write_last_id(new_last_id) executed.  Every raised
exception reaches the __main__ handler, which exits with code 1 and
deletes nothing. -/
def runExport (table : List Row) (n : Nat) (ds : Option Nat) (tOk : Bool)
    (fuel : Nat) (ck : Option String) : Option RunOutcome :=
  match exportLoop table n ds fuel 0 (read_last_id ck) none [] [] 0 (read_last_id ck) with
  | none => none
  | some (LoopResult.dsError st) =>
    some { exitCode := 1, ckpt := ck, ckptWritten := false, transferCalls := 0,
           artifactOnDisk := some st.file, fetches := st.fetches, total := st.total,
           newLast := st.newLast, dsErrored := true }
  | some (LoopResult.ok st) =>
    if st.total = 0 then
      some { exitCode := 0, ckpt := ck, ckptWritten := false, transferCalls := 0,
             artifactOnDisk := some st.file, fetches := st.fetches, total := st.total,
             newLast := st.newLast, dsErrored := false }
    else if tOk then
      some { exitCode := 0, ckpt := write_last_id st.newLast, ckptWritten := true,
             transferCalls := 1, artifactOnDisk := some st.file, fetches := st.fetches,
             total := st.total, newLast := st.newLast, dsErrored := false }
    else
      some { exitCode := 1, ckpt := ck, ckptWritten := false, transferCalls := 1,
             artifactOnDisk := some st.file, fetches := st.fetches, total := st.total,
             newLast := st.newLast, dsErrored := false }

/-- Rows fetched by a run, in fetch order: the concatenation of all
pages of its fetch trace. -/
def rowsOf (out : RunOutcome) : List Row :=
  (out.fetches.map Prod.snd).flatten

/-- The table invariant assumed by the script: row identifiers strictly
increase along the table (append-only, never reused). -/
abbrev idsStrictMono (table : List Row) : Prop :=
  table.Pairwise fun a b => a.id < b.id

/-- The pagination contract along a fetch trace starting from cursor c:
the first query uses lower bound c, after a nonempty page the next
query uses the ID of that page's last row, and an empty page is
final. -/
def fetchChain : Int → List (Int × List Row) → Prop
  | _, [] => True
  | c, (lb, p) :: rest =>
    lb = c ∧
      match p with
      | [] => rest = []
      | r :: rs => fetchChain (((r :: rs).getLast (List.cons_ne_nil r rs)).id) rest

/-- Reference fetch trace of the loop: the pages the queries return
when started at lower bound lb, with the given fuel. -/
def pagesFrom (table : List Row) (n : Nat) : Nat → Int → List (Int × List Row)
  | 0, _ => []
  | fuel + 1, lb =>
    match fetchPage table lb n with
    | [] => [(lb, [])]
    | r :: rs =>
      (lb, r :: rs) :: pagesFrom table n fuel (((r :: rs).getLast (List.cons_ne_nil r rs)).id)

/-- Writer state after processing all rows of fl starting from writer
state w. -/
def wAfter (w : Option (List String)) (fl : List Row) : Option (List String) :=
  match fl with
  | [] => w
  | r :: _ => some (w.getD r.keys)

/-- Lines appended to the CSV file while processing all rows of fl
starting from writer state w: a header derived from the first row when
the writer does not exist yet, then one data line per row. -/
def fileDelta (w : Option (List String)) (fl : List Row) : List Line :=
  (match w, fl with
   | none, r :: _ => [Line.header r.keys]
   | _, _ => []) ++ fl.map Line.data

/-- Value of new_last_id after processing all rows of fl, given its
prior value d: the ID of the last row, or d when there are none. -/
def lastAfter (d : Int) (fl : List Row) : Int :=
  match fl.getLast? with
  | some r => r.id
  | none => d

/-- Concrete two-row table used to instantiate the general theorems. -/
def rowA : Row := ⟨1, [("ID", ("1")), ("DATA", ("a"))]⟩

/-- Second concrete row. -/
def rowB : Row := ⟨2, [("ID", ("2")), ("DATA", ("b"))]⟩

/-- Concrete table with rows 1 and 2. -/
def tblAB : List Row := [rowA, rowB]

/-- Concrete one-row table whose only identifier is 3. -/
def rowC : Row := ⟨3, [("ID", ("3"))]⟩

/-- Concrete table containing only rowC. -/
def tblC : List Row := [rowC]

/-- Outcome of the reference run over tblAB (batch size 1, upload
succeeding, no checkpoint file) used to instantiate general theorems. -/
def outW : RunOutcome :=
  (runExport tblAB 1 none true (tblAB.length + 1) none).getD default

/-- Outcome of the reference run over tblAB with an upload failure. -/
def outWF : RunOutcome :=
  (runExport tblAB 1 none false (tblAB.length + 1) none).getD default

/-- Outcome of the reference run over tblAB with a data-source error on
the second query. -/
def outWD : RunOutcome :=
  (runExport tblAB 1 (some 1) true 3 none).getD default

theorem digitChar_isDigit {d : Nat} (h : d < 10) : (Nat.digitChar d).isDigit = true := by
  interval_cases d <;> decide

theorem digitVal_digitChar {d : Nat} (h : d < 10) : digitVal (Nat.digitChar d) = d := by
  interval_cases d <;> decide

theorem isDigit_not_whitespace {c : Char} (h : c.isDigit = true) : c.isWhitespace = false := by
  revert h
  simp only [Char.isWhitespace, Char.isDigit]
  rcases Decidable.em (c = ' ') with h1 | h1
  · subst h1; decide
  rcases Decidable.em (c = '\t') with h2 | h2
  · subst h2; decide
  rcases Decidable.em (c = '\r') with h3 | h3
  · subst h3; decide
  rcases Decidable.em (c = '\n') with h4 | h4
  · subst h4; decide
  intro _
  simp [h1, h2, h3, h4]

theorem isDigit_ne_of_not_digit {c x : Char} (h : c.isDigit = true)
    (hx : x.isDigit = false) : c ≠ x := by
  intro he
  rw [he, hx] at h
  exact Bool.false_ne_true h

theorem natDigitsAux_ne_nil_all_digit :
    ∀ fuel m, m < fuel →
      natDigitsAux fuel m ≠ [] ∧ ∀ c ∈ natDigitsAux fuel m, c.isDigit = true := by
  intro fuel
  induction fuel with
  | zero => intro m hm; omega
  | succ fuel ih =>
    intro m hm
    by_cases h10 : m < 10
    · simp only [natDigitsAux, if_pos h10]
      refine ⟨by simp, ?_⟩
      intro c hc
      simp only [List.mem_singleton] at hc
      subst hc
      exact digitChar_isDigit h10
    · have hdiv : m / 10 < fuel := by
        have := Nat.div_lt_self (by omega : 0 < m) (by omega : 1 < 10)
        omega
      obtain ⟨hne, hall⟩ := ih (m / 10) hdiv
      simp only [natDigitsAux, if_neg h10]
      constructor
      · intro hcontra
        exact hne (List.append_eq_nil.mp hcontra).1
      · intro c hc
        rcases List.mem_append.mp hc with h | h
        · exact hall c h
        · simp only [List.mem_singleton] at h
          subst h
          exact digitChar_isDigit (Nat.mod_lt m (by omega))

theorem natDigits_ne_nil (m : Nat) : natDigits m ≠ [] :=
  (natDigitsAux_ne_nil_all_digit (m + 1) m (Nat.lt_succ_self m)).1

theorem natDigits_all_digit (m : Nat) : ∀ c ∈ natDigits m, c.isDigit = true :=
  (natDigitsAux_ne_nil_all_digit (m + 1) m (Nat.lt_succ_self m)).2

theorem natDigitsAux_foldl :
    ∀ fuel m a, m < fuel →
      (natDigitsAux fuel m).foldl (fun x d => 10 * x + digitVal d) a =
        a * 10 ^ (natDigitsAux fuel m).length + m := by
  intro fuel
  induction fuel with
  | zero => intro m a hm; omega
  | succ fuel ih =>
    intro m a hm
    by_cases h10 : m < 10
    · simp only [natDigitsAux, if_pos h10, List.foldl_cons, List.foldl_nil,
        List.length_singleton, pow_one]
      rw [digitVal_digitChar h10]
      ring
    · have hdiv : m / 10 < fuel := by
        have := Nat.div_lt_self (by omega : 0 < m) (by omega : 1 < 10)
        omega
      simp only [natDigitsAux, if_neg h10, List.foldl_append, List.foldl_cons,
        List.foldl_nil, List.length_append, List.length_singleton]
      rw [ih (m / 10) a hdiv]
      rw [digitVal_digitChar (Nat.mod_lt m (by omega))]
      rw [pow_succ, ← mul_assoc]
      have hdm := Nat.div_add_mod m 10
      generalize a * 10 ^ (natDigitsAux fuel (m / 10)).length = X
      omega

theorem validUTail_of_all_digit :
    ∀ cs : List Char, (∀ c ∈ cs, c.isDigit = true) → validUTail false cs = true := by
  intro cs
  induction cs with
  | nil => intro _; rfl
  | cons c rest ih =>
    intro h
    have hc : c.isDigit = true := h c (by simp)
    simp only [validUTail, if_pos hc]
    exact ih fun x hx => h x (by simp [hx])

theorem filter_no_underscore {cs : List Char} (h : ∀ c ∈ cs, c.isDigit = true) :
    cs.filter (fun d => !(d == '_')) = cs := by
  rw [List.filter_eq_self]
  intro c hc
  have hne : c ≠ '_' := isDigit_ne_of_not_digit (h c hc) (by decide)
  simp [hne]

theorem pyDigits?_natDigits (m : Nat) : pyDigits? (natDigits m) = some m := by
  rcases hnd : natDigits m with _ | ⟨c, rest⟩
  · exact absurd hnd (natDigits_ne_nil m)
  · have hall : ∀ x ∈ c :: rest, x.isDigit = true := by
      rw [← hnd]; exact natDigits_all_digit m
    have hc : c.isDigit = true := hall c (by simp)
    have hrest : ∀ x ∈ rest, x.isDigit = true := fun x hx => hall x (by simp [hx])
    simp only [pyDigits?, hc, validUTail_of_all_digit rest hrest, Bool.and_self, if_pos]
    rw [filter_no_underscore hall]
    rw [← hnd]
    have := natDigitsAux_foldl (m + 1) m 0 (Nat.lt_succ_self m)
    simp only [natDigits]
    rw [this]
    simp

theorem dropWhile_eq_self_of_no_ws {l : List Char}
    (h : ∀ c ∈ l, c.isWhitespace = false) : l.dropWhile Char.isWhitespace = l := by
  cases l with
  | nil => rfl
  | cons c t =>
    rw [List.dropWhile_cons]
    simp [h c (by simp)]

theorem stripChars_eq_self {cs : List Char}
    (h : ∀ c ∈ cs, c.isWhitespace = false) : stripChars cs = cs := by
  unfold stripChars
  rw [dropWhile_eq_self_of_no_ws h]
  rw [dropWhile_eq_self_of_no_ws (fun c hc => h c (List.mem_reverse.mp hc))]
  exact List.reverse_reverse cs

theorem read_last_id_write_last_id (n : Int) :
    read_last_id (write_last_id n) = n := by
  unfold read_last_id write_last_id pyStrip pyInt? pyStr
  by_cases hn : n < 0
  · rw [if_pos hn]
    have hall : ∀ c ∈ '-' :: natDigits n.natAbs, c.isWhitespace = false := by
      intro c hc
      rcases List.mem_cons.mp hc with h | h
      · subst h; decide
      · exact isDigit_not_whitespace (natDigits_all_digit n.natAbs c h)
    show (pyIntChars? (stripChars ('-' :: natDigits n.natAbs))).getD 0 = n
    rw [stripChars_eq_self hall]
    simp only [pyIntChars?, if_pos rfl]
    rw [pyDigits?_natDigits]
    show -((n.natAbs : Nat) : Int) = n
    omega
  · rw [if_neg hn]
    have hall : ∀ c ∈ natDigits n.toNat, c.isWhitespace = false := fun c hc =>
      isDigit_not_whitespace (natDigits_all_digit n.toNat c hc)
    show (pyIntChars? (stripChars (natDigits n.toNat))).getD 0 = n
    rw [stripChars_eq_self hall]
    rcases hnd : natDigits n.toNat with _ | ⟨c, rest⟩
    · exact absurd hnd (natDigits_ne_nil n.toNat)
    · have hc : c.isDigit = true := by
        have := natDigits_all_digit n.toNat c (by rw [hnd]; simp)
        exact this
      have hc1 : c ≠ '-' := isDigit_ne_of_not_digit hc (by decide)
      have hc2 : c ≠ '+' := isDigit_ne_of_not_digit hc (by decide)
      simp only [pyIntChars?, if_neg hc1, if_neg hc2]
      rw [← hnd, pyDigits?_natDigits]
      show ((n.toNat : Nat) : Int) = n
      omega

theorem mem_of_getLast?_eq {α : Type _} {l : List α} {y : α} (h : l.getLast? = some y) :
    y ∈ l := by
  cases l with
  | nil => simp at h
  | cons a t =>
    rw [List.getLast?_eq_getLast (a :: t) (List.cons_ne_nil a t)] at h
    have hm := List.getLast_mem (List.cons_ne_nil a t)
    rwa [Option.some.inj h] at hm

theorem pairwise_le_getLast? {l : List Row} {y : Row}
    (hp : l.Pairwise fun a b => a.id ≤ b.id) (hy : l.getLast? = some y) :
    ∀ x ∈ l, x.id ≤ y.id := by
  induction l generalizing y with
  | nil => simp at hy
  | cons a t ih =>
    intro x hx
    cases t with
    | nil =>
      simp only [List.getLast?_singleton, Option.some.injEq] at hy
      simp only [List.mem_singleton] at hx
      subst hy; subst hx
      exact le_refl _
    | cons b t' =>
      rw [List.getLast?_cons_cons] at hy
      have hymem : y ∈ b :: t' := mem_of_getLast?_eq hy
      rcases List.mem_cons.mp hx with h | h
      · subst h
        exact (List.pairwise_cons.mp hp).1 y hymem
      · exact ih (List.pairwise_cons.mp hp).2 hy x h

theorem fetchPage_eq_take {table : List Row} (hs : idsStrictMono table) (lb : Int) (n : Nat) :
    fetchPage table lb n = (table.filter (fun r => decide (lb < r.id))).take n := by
  unfold fetchPage
  congr 1
  exact List.Sorted.insertionSort_eq
    ((hs.filter _).imp fun h => le_of_lt h)

theorem filter_ne_nil_of_take {table : List Row} {lb : Int} {n : Nat} {r : Row} {rs : List Row}
    (htake : (table.filter (fun x => decide (lb < x.id))).take n = r :: rs) :
    table.filter (fun x => decide (lb < x.id)) ≠ [] := by
  intro hnil
  rw [hnil] at htake
  simp at htake

theorem filter_split_of_take {table : List Row} {lb : Int} {n : Nat} {r : Row} {rs : List Row}
    (htake : (table.filter (fun x => decide (lb < x.id))).take n = r :: rs) :
    table.filter (fun x => decide (lb < x.id)) =
      (r :: rs) ++ (table.filter (fun x => decide (lb < x.id))).drop n := by
  conv_lhs => rw [← List.take_append_drop n (table.filter (fun x => decide (lb < x.id)))]
  rw [htake]

theorem filter_after_page {table : List Row} {n : Nat} (hs : idsStrictMono table) (_hn : 0 < n)
    {lb : Int} {r : Row} {rs : List Row} (hpage : fetchPage table lb n = r :: rs) :
    table.filter
        (fun x => decide ((((r :: rs).getLast (List.cons_ne_nil r rs)).id) < x.id)) =
      (table.filter (fun x => decide (lb < x.id))).drop n := by
  have htake : (table.filter (fun x => decide (lb < x.id))).take n = r :: rs := by
    rw [← fetchPage_eq_take hs]; exact hpage
  have hflp : (table.filter (fun x => decide (lb < x.id))).Pairwise
      (fun a b => a.id < b.id) := hs.filter _
  have hsubl : (r :: rs).Sublist (table.filter (fun x => decide (lb < x.id))) := by
    rw [← htake]; exact List.take_sublist n _
  have hpagep : (r :: rs).Pairwise (fun a b : Row => a.id < b.id) :=
    List.Pairwise.sublist hsubl hflp
  have hLmem : ((r :: rs).getLast (List.cons_ne_nil r rs)) ∈ r :: rs :=
    List.getLast_mem (List.cons_ne_nil r rs)
  have hLfl : ((r :: rs).getLast (List.cons_ne_nil r rs)) ∈
      table.filter (fun x => decide (lb < x.id)) := hsubl.subset hLmem
  have hlbL : lb < ((r :: rs).getLast (List.cons_ne_nil r rs)).id := by
    have := (List.mem_filter.mp hLfl).2
    simpa using this
  have hsplit := filter_split_of_take htake
  have h1 : table.filter
      (fun x => decide ((((r :: rs).getLast (List.cons_ne_nil r rs)).id) < x.id)) =
      (table.filter (fun x => decide (lb < x.id))).filter
        (fun x => decide ((((r :: rs).getLast (List.cons_ne_nil r rs)).id) < x.id)) := by
    rw [List.filter_filter]
    apply List.filter_congr
    intro x _
    by_cases hq : (((r :: rs).getLast (List.cons_ne_nil r rs)).id) < x.id
    · have hlb : lb < x.id := lt_trans hlbL hq
      simp [hq, hlb]
    · simp [hq]
  rw [h1]
  conv_lhs => rw [hsplit]
  rw [List.filter_append]
  have h2 : (r :: rs).filter
      (fun x => decide ((((r :: rs).getLast (List.cons_ne_nil r rs)).id) < x.id)) = [] := by
    rw [List.filter_eq_nil_iff]
    intro a ha
    have hle : a.id ≤ ((r :: rs).getLast (List.cons_ne_nil r rs)).id :=
      pairwise_le_getLast? (hpagep.imp fun h => le_of_lt h)
        (List.getLast?_eq_getLast _ (List.cons_ne_nil r rs)) a ha
    simp
    omega
  have h3 : ((table.filter (fun x => decide (lb < x.id))).drop n).filter
      (fun x => decide ((((r :: rs).getLast (List.cons_ne_nil r rs)).id) < x.id)) =
      (table.filter (fun x => decide (lb < x.id))).drop n := by
    rw [List.filter_eq_self]
    intro b hb
    have hrel : ∀ a ∈ r :: rs,
        ∀ c ∈ (table.filter (fun x => decide (lb < x.id))).drop n, a.id < c.id := by
      have := hsplit ▸ hflp
      exact (List.pairwise_append.mp this).2.2
    have := hrel _ hLmem b hb
    simpa using this
  rw [h2, h3, List.nil_append]

theorem lastAfter_after_page {table : List Row} {n : Nat} (hs : idsStrictMono table)
    (hn : 0 < n) {lb : Int} {r : Row} {rs : List Row}
    (hpage : fetchPage table lb n = r :: rs) (d : Int) :
    lastAfter (((r :: rs).getLast (List.cons_ne_nil r rs)).id)
        (table.filter
          (fun x => decide ((((r :: rs).getLast (List.cons_ne_nil r rs)).id) < x.id))) =
      lastAfter d (table.filter (fun x => decide (lb < x.id))) := by
  have htake : (table.filter (fun x => decide (lb < x.id))).take n = r :: rs := by
    rw [← fetchPage_eq_take hs]; exact hpage
  have hsplit := filter_split_of_take htake
  rw [filter_after_page hs hn hpage]
  rcases hd : (table.filter (fun x => decide (lb < x.id))).drop n with _ | ⟨y, ys⟩
  · rw [hd]
    have hfl : table.filter (fun x => decide (lb < x.id)) = r :: rs := by
      rw [hsplit, hd, List.append_nil]
    rw [hfl]
    simp [lastAfter, List.getLast?_eq_getLast (r :: rs) (List.cons_ne_nil r rs)]
  · rw [hd]
    have hfl2 : table.filter (fun x => decide (lb < x.id)) = (r :: rs) ++ (y :: ys) := by
      rw [hsplit, hd]
    rw [hfl2]
    unfold lastAfter
    rw [List.getLast?_append]
    rcases hz : (y :: ys).getLast? with _ | z
    · rw [List.getLast?_eq_none_iff] at hz
      exact absurd hz (List.cons_ne_nil y ys)
    · simp [Option.or]

theorem exportLoop_none_eq {table : List Row} {n : Nat} (hs : idsStrictMono table)
    (hn : 0 < n) :
    ∀ (fuel : Nat) (lb : Int) (k : Nat) (w : Option (List String)) (file : List Line)
      (fx : List (Int × List Row)) (tot : Nat) (last : Int),
      (table.filter (fun x => decide (lb < x.id))).length < fuel →
      exportLoop table n none fuel k lb w file fx tot last =
        some (LoopResult.ok
          ⟨fx ++ pagesFrom table n fuel lb,
           wAfter w (table.filter (fun x => decide (lb < x.id))),
           file ++ fileDelta w (table.filter (fun x => decide (lb < x.id))),
           tot + (table.filter (fun x => decide (lb < x.id))).length,
           lastAfter last (table.filter (fun x => decide (lb < x.id)))⟩) := by
  intro fuel
  induction fuel with
  | zero => intro lb k w file fx tot last hlen; omega
  | succ fuel ih =>
    intro lb k w file fx tot last hlen
    rcases hpage : fetchPage table lb n with _ | ⟨r, rs⟩
    · have hfl : table.filter (fun x => decide (lb < x.id)) = [] := by
        have ht := fetchPage_eq_take hs lb n
        rw [hpage] at ht
        rcases List.take_eq_nil_iff.mp ht.symm with h | h
        · omega
        · exact h
      simp only [exportLoop, pagesFrom, hpage, hfl]
      simp [wAfter, fileDelta, lastAfter]
    · have htake : (table.filter (fun x => decide (lb < x.id))).take n = r :: rs := by
        rw [← fetchPage_eq_take hs]; exact hpage
      have hsplit := filter_split_of_take htake
      have hdrop := filter_after_page hs hn hpage
      have hflen : (table.filter (fun x => decide (lb < x.id))).length =
          (r :: rs).length + ((table.filter (fun x => decide (lb < x.id))).drop n).length := by
        conv_lhs => rw [hsplit]
        rw [List.length_append]
      have hlen' : (table.filter (fun x =>
          decide ((((r :: rs).getLast (List.cons_ne_nil r rs)).id) < x.id))).length < fuel := by
        rw [hdrop]
        simp only [List.length_cons] at hflen
        omega
      have ihh := ih (((r :: rs).getLast (List.cons_ne_nil r rs)).id) (k + 1)
        (some (w.getD r.keys))
        ((if w.isNone then file ++ [Line.header r.keys] else file) ++ (r :: rs).map Line.data)
        (fx ++ [(lb, r :: rs)])
        (tot + (r :: rs).length)
        (((r :: rs).getLast (List.cons_ne_nil r rs)).id)
        hlen'
      simp only [exportLoop, hpage]
      rw [if_neg (fun h => Option.noConfusion h)]
      rw [ihh]
      simp only [Option.some.injEq, LoopResult.ok.injEq, LoopOut.mk.injEq]
      refine ⟨?_, ?_, ?_, ?_, ?_⟩
      · simp only [pagesFrom, hpage]
        simp [List.append_assoc]
      · rw [hdrop]
        rcases hd : (table.filter (fun x => decide (lb < x.id))).drop n with _ | ⟨y, ys⟩
        · have hfl2 : table.filter (fun x => decide (lb < x.id)) = r :: rs := by
            rw [hsplit, hd, List.append_nil]
          rw [hd, hfl2]
          simp [wAfter]
        · have hfl2 : table.filter (fun x => decide (lb < x.id)) = (r :: rs) ++ (y :: ys) := by
            rw [hsplit, hd]
          rw [hd, hfl2]
          simp [wAfter]
      · rw [hdrop]
        rcases hd : (table.filter (fun x => decide (lb < x.id))).drop n with _ | ⟨y, ys⟩
        · have hfl2 : table.filter (fun x => decide (lb < x.id)) = r :: rs := by
            rw [hsplit, hd, List.append_nil]
          rw [hd, hfl2]
          rcases w with _ | v <;> simp [fileDelta]
        · have hfl2 : table.filter (fun x => decide (lb < x.id)) = (r :: rs) ++ (y :: ys) := by
            rw [hsplit, hd]
          rw [hd, hfl2]
          rcases w with _ | v <;> simp [fileDelta]
      · rw [hdrop]
        simp only [List.length_cons] at hflen ⊢
        omega
      · exact lastAfter_after_page hs hn hpage last

theorem pagesFrom_flatten {table : List Row} {n : Nat} (hs : idsStrictMono table)
    (hn : 0 < n) :
    ∀ (fuel : Nat) (lb : Int),
      (table.filter (fun x => decide (lb < x.id))).length < fuel →
      ((pagesFrom table n fuel lb).map Prod.snd).flatten =
        table.filter (fun x => decide (lb < x.id)) := by
  intro fuel
  induction fuel with
  | zero => intro lb hlen; omega
  | succ fuel ih =>
    intro lb hlen
    rcases hpage : fetchPage table lb n with _ | ⟨r, rs⟩
    · have hfl : table.filter (fun x => decide (lb < x.id)) = [] := by
        have ht := fetchPage_eq_take hs lb n
        rw [hpage] at ht
        rcases List.take_eq_nil_iff.mp ht.symm with h | h
        · omega
        · exact h
      simp [pagesFrom, hpage, hfl]
    · have htake : (table.filter (fun x => decide (lb < x.id))).take n = r :: rs := by
        rw [← fetchPage_eq_take hs]; exact hpage
      have hsplit := filter_split_of_take htake
      have hdrop := filter_after_page hs hn hpage
      have hflen : (table.filter (fun x => decide (lb < x.id))).length =
          (r :: rs).length + ((table.filter (fun x => decide (lb < x.id))).drop n).length := by
        conv_lhs => rw [hsplit]
        rw [List.length_append]
      have hlen' : (table.filter (fun x =>
          decide ((((r :: rs).getLast (List.cons_ne_nil r rs)).id) < x.id))).length < fuel := by
        rw [hdrop]
        simp only [List.length_cons] at hflen
        omega
      simp only [pagesFrom, hpage, List.map_cons, List.flatten_cons]
      rw [ih _ hlen', hdrop]
      exact hsplit.symm

theorem fetchChain_pagesFrom {table : List Row} {n : Nat} :
    ∀ (fuel : Nat) (lb : Int), fetchChain lb (pagesFrom table n fuel lb) := by
  intro fuel
  induction fuel with
  | zero => intro lb; simp [pagesFrom, fetchChain]
  | succ fuel ih =>
    intro lb
    rcases hpage : fetchPage table lb n with _ | ⟨r, rs⟩
    · simp [pagesFrom, hpage, fetchChain]
    · simp only [pagesFrom, hpage, fetchChain]
      exact ⟨by trivial, ih _⟩

theorem pagesFrom_last_empty {table : List Row} {n : Nat} (hs : idsStrictMono table)
    (hn : 0 < n) :
    ∀ (fuel : Nat) (lb : Int),
      (table.filter (fun x => decide (lb < x.id))).length < fuel →
      (pagesFrom table n fuel lb).getLast? =
          some (lastAfter lb (table.filter (fun x => decide (lb < x.id))), []) ∧
        ∀ f ∈ (pagesFrom table n fuel lb).dropLast, f.2 ≠ [] := by
  intro fuel
  induction fuel with
  | zero => intro lb hlen; omega
  | succ fuel ih =>
    intro lb hlen
    rcases hpage : fetchPage table lb n with _ | ⟨r, rs⟩
    · have hfl : table.filter (fun x => decide (lb < x.id)) = [] := by
        have ht := fetchPage_eq_take hs lb n
        rw [hpage] at ht
        rcases List.take_eq_nil_iff.mp ht.symm with h | h
        · omega
        · exact h
      simp [pagesFrom, hpage, hfl, lastAfter]
    · have htake : (table.filter (fun x => decide (lb < x.id))).take n = r :: rs := by
        rw [← fetchPage_eq_take hs]; exact hpage
      have hsplit := filter_split_of_take htake
      have hdrop := filter_after_page hs hn hpage
      have hflen : (table.filter (fun x => decide (lb < x.id))).length =
          (r :: rs).length + ((table.filter (fun x => decide (lb < x.id))).drop n).length := by
        conv_lhs => rw [hsplit]
        rw [List.length_append]
      have hlen' : (table.filter (fun x =>
          decide ((((r :: rs).getLast (List.cons_ne_nil r rs)).id) < x.id))).length < fuel := by
        rw [hdrop]
        simp only [List.length_cons] at hflen
        omega
      obtain ⟨ih1, ih2⟩ := ih (((r :: rs).getLast (List.cons_ne_nil r rs)).id) hlen'
      have hrne : pagesFrom table n fuel (((r :: rs).getLast (List.cons_ne_nil r rs)).id) ≠ [] := by
        intro h
        rw [h] at ih1
        simp at ih1
      simp only [pagesFrom, hpage]
      constructor
      · rcases hr : pagesFrom table n fuel (((r :: rs).getLast (List.cons_ne_nil r rs)).id)
          with _ | ⟨y, ys⟩
        · exact absurd hr hrne
        · rw [List.getLast?_cons_cons]
          rw [← hr, ih1]
          rw [lastAfter_after_page hs hn hpage lb]
      · rcases hr : pagesFrom table n fuel (((r :: rs).getLast (List.cons_ne_nil r rs)).id)
          with _ | ⟨y, ys⟩
        · exact absurd hr hrne
        · rw [List.dropLast_cons_of_ne_nil (List.cons_ne_nil y ys)]
          intro f hf
          rcases List.mem_cons.mp hf with h | h
          · subst h
            exact List.cons_ne_nil r rs
          · rw [← hr] at h
            exact ih2 f h

theorem exportLoop_ok_of_ds {table : List Row} {n : Nat} {ds : Option Nat} :
    ∀ (fuel : Nat) (k : Nat) (lb : Int) (w : Option (List String)) (file : List Line)
      (fx : List (Int × List Row)) (tot : Nat) (last : Int) (st : LoopOut),
      exportLoop table n ds fuel k lb w file fx tot last = some (LoopResult.ok st) →
      exportLoop table n none fuel k lb w file fx tot last = some (LoopResult.ok st) := by
  intro fuel
  induction fuel with
  | zero => intro k lb w file fx tot last st h; simp [exportLoop] at h
  | succ fuel ih =>
    intro k lb w file fx tot last st h
    by_cases hds : ds = some k
    · rw [exportLoop, if_pos hds] at h
      simp at h
    · rw [exportLoop, if_neg hds] at h
      rw [exportLoop, if_neg (fun hc => Option.noConfusion hc)]
      rcases hpage : fetchPage table lb n with _ | ⟨r, rs⟩
      · rw [hpage] at h
        exact h
      · rw [hpage] at h
        exact ih _ _ _ _ _ _ _ _ h

theorem lastAfter_cons (d : Int) (r : Row) (rest : List Row) :
    lastAfter d (r :: rest) = ((r :: rest).getLast (List.cons_ne_nil r rest)).id := by
  unfold lastAfter
  rw [List.getLast?_eq_getLast (r :: rest) (List.cons_ne_nil r rest)]

theorem runExport_none_char {table : List Row} {n : Nat} (hs : idsStrictMono table)
    (hn : 0 < n) (tOk : Bool) (ck : Option String) :
    runExport table n none tOk (table.length + 1) ck =
      some { exitCode :=
               if (table.filter (fun x => decide (read_last_id ck < x.id))).length = 0 then 0
               else if tOk then 0 else 1,
             ckpt :=
               if (table.filter (fun x => decide (read_last_id ck < x.id))).length = 0 then ck
               else if tOk then
                 write_last_id (lastAfter (read_last_id ck)
                   (table.filter (fun x => decide (read_last_id ck < x.id))))
               else ck,
             ckptWritten :=
               if (table.filter (fun x => decide (read_last_id ck < x.id))).length = 0 then false
               else if tOk then true else false,
             transferCalls :=
               if (table.filter (fun x => decide (read_last_id ck < x.id))).length = 0 then 0
               else 1,
             artifactOnDisk :=
               some (fileDelta none (table.filter (fun x => decide (read_last_id ck < x.id)))),
             fetches := pagesFrom table n (table.length + 1) (read_last_id ck),
             total := (table.filter (fun x => decide (read_last_id ck < x.id))).length,
             newLast := lastAfter (read_last_id ck)
               (table.filter (fun x => decide (read_last_id ck < x.id))),
             dsErrored := false } := by
  have hloop := exportLoop_none_eq hs hn (table.length + 1) (read_last_id ck) 0 none [] [] 0
    (read_last_id ck) (Nat.lt_succ_of_le (List.length_filter_le _ _))
  simp only [List.nil_append, Nat.zero_add] at hloop
  unfold runExport
  rw [hloop]
  by_cases h0 : (table.filter (fun x => decide (read_last_id ck < x.id))).length = 0 <;>
    cases tOk <;> simp [h0]

theorem runExport_of_loop_ok {table : List Row} {n : Nat} {ds : Option Nat} {tOk : Bool}
    {fuel : Nat} {ck : Option String} {st : LoopOut}
    (hl : exportLoop table n ds fuel 0 (read_last_id ck) none [] [] 0 (read_last_id ck) =
      some (LoopResult.ok st)) :
    runExport table n ds tOk fuel ck =
      if st.total = 0 then
        some { exitCode := 0, ckpt := ck, ckptWritten := false, transferCalls := 0,
               artifactOnDisk := some st.file, fetches := st.fetches, total := st.total,
               newLast := st.newLast, dsErrored := false }
      else if tOk then
        some { exitCode := 0, ckpt := write_last_id st.newLast, ckptWritten := true,
               transferCalls := 1, artifactOnDisk := some st.file, fetches := st.fetches,
               total := st.total, newLast := st.newLast, dsErrored := false }
      else
        some { exitCode := 1, ckpt := ck, ckptWritten := false, transferCalls := 1,
               artifactOnDisk := some st.file, fetches := st.fetches, total := st.total,
               newLast := st.newLast, dsErrored := false } := by
  unfold runExport
  rw [hl]

theorem runExport_of_loop_dsError {table : List Row} {n : Nat} {ds : Option Nat} {tOk : Bool}
    {fuel : Nat} {ck : Option String} {st : LoopOut}
    (hl : exportLoop table n ds fuel 0 (read_last_id ck) none [] [] 0 (read_last_id ck) =
      some (LoopResult.dsError st)) :
    runExport table n ds tOk fuel ck =
      some { exitCode := 1, ckpt := ck, ckptWritten := false, transferCalls := 0,
             artifactOnDisk := some st.file, fetches := st.fetches, total := st.total,
             newLast := st.newLast, dsErrored := true } := by
  unfold runExport
  rw [hl]

/-- C1: for every run, the checkpoint is persisted exactly when at least
one row was exported and the upload succeeded; when it is persisted, its
content is str of new_last_id, which reads back as the highest
identifier among the exported rows; and when the upload fails the
checkpoint file keeps its pre-run content and the artifact file is still
on disk. -/
theorem run_checkpoint_iff_upload_success {table : List Row} {n : Nat} {ds : Option Nat}
    {tOk : Bool} {ck : Option String} {out : RunOutcome}
    (hs : idsStrictMono table) (hn : 0 < n)
    (h : runExport table n ds tOk (table.length + 1) ck = some out) :
    (out.ckptWritten = true ↔ 0 < out.total ∧ out.transferCalls = 1 ∧ tOk = true) ∧
    (out.ckptWritten = true →
      out.ckpt = write_last_id out.newLast ∧
      read_last_id out.ckpt = out.newLast ∧
      (∃ r ∈ rowsOf out, r.id = out.newLast) ∧
      ∀ r ∈ rowsOf out, r.id ≤ out.newLast) ∧
    (tOk = false → out.transferCalls = 1 →
      out.ckpt = ck ∧ out.ckptWritten = false ∧ out.artifactOnDisk.isSome = true) := by
  rcases hl : exportLoop table n ds (table.length + 1) 0 (read_last_id ck) none [] [] 0
      (read_last_id ck) with _ | lr
  · rw [runExport] at h
    rw [hl] at h
    simp at h
  · cases lr with
    | dsError st =>
      rw [runExport_of_loop_dsError hl] at h
      obtain rfl := Option.some.inj h
      refine ⟨by simp, by simp, ?_⟩
      intro _ hc
      simp at hc
    | ok st =>
      rw [runExport_of_loop_ok hl] at h
      have hnone := exportLoop_ok_of_ds _ _ _ _ _ _ _ _ _ hl
      have hchar := exportLoop_none_eq hs hn (table.length + 1) (read_last_id ck) 0 none [] []
        0 (read_last_id ck) (Nat.lt_succ_of_le (List.length_filter_le _ _))
      simp only [List.nil_append, Nat.zero_add] at hchar
      rw [hchar] at hnone
      obtain rfl := LoopResult.ok.inj (Option.some.inj hnone)
      by_cases h0 : (LoopOut.mk (pagesFrom table n (table.length + 1) (read_last_id ck))
          (wAfter none (table.filter (fun x => decide (read_last_id ck < x.id))))
          (fileDelta none (table.filter (fun x => decide (read_last_id ck < x.id))))
          (table.filter (fun x => decide (read_last_id ck < x.id))).length
          (lastAfter (read_last_id ck)
            (table.filter (fun x => decide (read_last_id ck < x.id))))).total = 0
      · rw [if_pos h0] at h
        obtain rfl := Option.some.inj h
        refine ⟨by simp, by simp, ?_⟩
        intro _ hc
        simp at hc
      · rw [if_neg h0] at h
        have h0' : (table.filter (fun x => decide (read_last_id ck < x.id))).length ≠ 0 := h0
        have hrows := pagesFrom_flatten hs hn (table.length + 1) (read_last_id ck)
          (Nat.lt_succ_of_le (List.length_filter_le _ _))
        cases tOk with
        | false =>
          rw [if_neg (by simp)] at h
          obtain rfl := Option.some.inj h
          refine ⟨by simp, by simp, ?_⟩
          intro _ _
          exact ⟨rfl, rfl, rfl⟩
        | true =>
          rw [if_pos rfl] at h
          obtain rfl := Option.some.inj h
          refine ⟨by simp [Nat.pos_of_ne_zero h0'], ?_, by intro hc; simp at hc⟩
          intro _
          refine ⟨rfl, read_last_id_write_last_id _, ?_, ?_⟩
          · show ∃ r ∈ ((pagesFrom table n (table.length + 1)
                (read_last_id ck)).map Prod.snd).flatten,
              r.id = lastAfter (read_last_id ck)
                (table.filter (fun x => decide (read_last_id ck < x.id)))
            rw [hrows]
            rcases hfl : table.filter (fun x => decide (read_last_id ck < x.id))
              with _ | ⟨r, rest⟩
            · rw [hfl] at h0'
              simp at h0'
            · rw [hfl, lastAfter_cons]
              exact ⟨(r :: rest).getLast (List.cons_ne_nil r rest),
                List.getLast_mem (List.cons_ne_nil r rest), rfl⟩
          · show ∀ r ∈ ((pagesFrom table n (table.length + 1)
                (read_last_id ck)).map Prod.snd).flatten,
              r.id ≤ lastAfter (read_last_id ck)
                (table.filter (fun x => decide (read_last_id ck < x.id)))
            rw [hrows]
            rcases hfl : table.filter (fun x => decide (read_last_id ck < x.id))
              with _ | ⟨r, rest⟩
            · rw [hfl] at h0'
              simp at h0'
            · rw [hfl, lastAfter_cons]
              intro x hx
              have hp : (r :: rest).Pairwise (fun a b : Row => a.id ≤ b.id) := by
                have := hs.filter (fun x => decide (read_last_id ck < x.id))
                rw [hfl] at this
                exact this.imp fun hab => le_of_lt hab
              exact pairwise_le_getLast? hp
                (List.getLast?_eq_getLast (r :: rest) (List.cons_ne_nil r rest)) x hx

/-- Witness for C1 at a concrete run: two rows, batch size 1, upload
succeeds, no prior checkpoint file. -/
theorem run_checkpoint_iff_upload_success_witness :
    idsStrictMono tblAB ∧ 0 < 1 ∧
    runExport tblAB 1 none true (tblAB.length + 1) none = some outW ∧
    ((outW.ckptWritten = true ↔ 0 < outW.total ∧ outW.transferCalls = 1 ∧ true = true) ∧
     (outW.ckptWritten = true →
       outW.ckpt = write_last_id outW.newLast ∧
       read_last_id outW.ckpt = outW.newLast ∧
       (∃ r ∈ rowsOf outW, r.id = outW.newLast) ∧
       ∀ r ∈ rowsOf outW, r.id ≤ outW.newLast) ∧
     (true = false → outW.transferCalls = 1 →
       outW.ckpt = none ∧ outW.ckptWritten = false ∧ outW.artifactOnDisk.isSome = true)) :=
  ⟨by decide, by decide, by decide,
    @run_checkpoint_iff_upload_success tblAB 1 none true none outW
      (by decide) (by decide) (by decide)⟩

/-- C2: in every complete run over a table with strictly increasing
identifiers, the concatenation of the fetched pages has strictly
increasing identifiers, no repeated identifier, contains no identifier
at or below the starting checkpoint, and every query after a nonempty
page uses the ID of that page's last row as its lower bound, starting
from the checkpoint. -/
theorem run_pagination_no_gaps_no_dups {table : List Row} {n : Nat} {tOk : Bool}
    {ck : Option String} {out : RunOutcome}
    (hs : idsStrictMono table) (hn : 0 < n)
    (h : runExport table n none tOk (table.length + 1) ck = some out) :
    (rowsOf out).Pairwise (fun a b => a.id < b.id) ∧
    ((rowsOf out).map (fun r => r.id)).Nodup ∧
    (∀ r ∈ rowsOf out, read_last_id ck < r.id) ∧
    fetchChain (read_last_id ck) out.fetches := by
  rw [runExport_none_char hs hn tOk ck] at h
  obtain rfl := Option.some.inj h
  have hrows := pagesFrom_flatten hs hn (table.length + 1) (read_last_id ck)
    (Nat.lt_succ_of_le (List.length_filter_le _ _))
  refine ⟨?_, ?_, ?_, ?_⟩
  · show (((pagesFrom table n (table.length + 1) (read_last_id ck)).map
      Prod.snd).flatten).Pairwise (fun a b => a.id < b.id)
    rw [hrows]
    exact hs.filter _
  · show ((((pagesFrom table n (table.length + 1) (read_last_id ck)).map
      Prod.snd).flatten).map (fun r => r.id)).Pairwise (fun a b => a ≠ b)
    rw [hrows]
    exact List.pairwise_map.mpr ((hs.filter _).imp fun hab => ne_of_lt hab)
  · show ∀ r ∈ ((pagesFrom table n (table.length + 1) (read_last_id ck)).map
      Prod.snd).flatten, read_last_id ck < r.id
    rw [hrows]
    intro r hr
    have := (List.mem_filter.mp hr).2
    simpa using this
  · show fetchChain (read_last_id ck)
      (pagesFrom table n (table.length + 1) (read_last_id ck))
    exact fetchChain_pagesFrom _ _

/-- Witness for C2 at the reference run. -/
theorem run_pagination_no_gaps_no_dups_witness :
    idsStrictMono tblAB ∧ 0 < 1 ∧
    runExport tblAB 1 none true (tblAB.length + 1) none = some outW ∧
    ((rowsOf outW).Pairwise (fun a b => a.id < b.id) ∧
     ((rowsOf outW).map (fun r => r.id)).Nodup ∧
     (∀ r ∈ rowsOf outW, read_last_id none < r.id) ∧
     fetchChain (read_last_id none) outW.fetches) :=
  ⟨by decide, by decide, by decide,
    @run_pagination_no_gaps_no_dups tblAB 1 true none outW
      (by decide) (by decide) (by decide)⟩

/-- C3: over a fixed table and starting checkpoint, two successful runs
with any two positive batch sizes export the same row sequence, write
the same artifact, and leave the same final checkpoint. -/
theorem run_batch_size_invariance {table : List Row} {n₁ n₂ : Nat} {ck : Option String}
    (hs : idsStrictMono table) (h1 : 0 < n₁) (h2 : 0 < n₂) :
    ∃ o₁ o₂, runExport table n₁ none true (table.length + 1) ck = some o₁ ∧
      runExport table n₂ none true (table.length + 1) ck = some o₂ ∧
      rowsOf o₁ = rowsOf o₂ ∧ o₁.artifactOnDisk = o₂.artifactOnDisk ∧
      o₁.ckpt = o₂.ckpt ∧ o₁.total = o₂.total ∧ o₁.newLast = o₂.newLast := by
  refine ⟨_, _, runExport_none_char hs h1 true ck, runExport_none_char hs h2 true ck,
    ?_, rfl, rfl, rfl, rfl⟩
  show ((pagesFrom table n₁ (table.length + 1) (read_last_id ck)).map Prod.snd).flatten =
    ((pagesFrom table n₂ (table.length + 1) (read_last_id ck)).map Prod.snd).flatten
  rw [pagesFrom_flatten hs h1 (table.length + 1) (read_last_id ck)
    (Nat.lt_succ_of_le (List.length_filter_le _ _))]
  rw [pagesFrom_flatten hs h2 (table.length + 1) (read_last_id ck)
    (Nat.lt_succ_of_le (List.length_filter_le _ _))]

/-- Witness for C3 with batch sizes 1 and 7. -/
theorem run_batch_size_invariance_witness :
    idsStrictMono tblAB ∧ 0 < 1 ∧ 0 < 7 ∧
    (∃ o₁ o₂, runExport tblAB 1 none true (tblAB.length + 1) none = some o₁ ∧
      runExport tblAB 7 none true (tblAB.length + 1) none = some o₂ ∧
      rowsOf o₁ = rowsOf o₂ ∧ o₁.artifactOnDisk = o₂.artifactOnDisk ∧
      o₁.ckpt = o₂.ckpt ∧ o₁.total = o₂.total ∧ o₁.newLast = o₂.newLast) :=
  ⟨by decide, by decide, by decide,
    @run_batch_size_invariance tblAB 1 7 none (by decide) (by decide) (by decide)⟩

/-- C4, evaluated at the failing input (checkpoint file holds 5, the
only row has ID 3, so no row qualifies): the run succeeds with exit
code 0, makes no transfer, writes no content and leaves the checkpoint
at 5 - but an empty artifact file is created and left on disk
(artifactOnDisk is some [] rather than none), although the script
itself prints that no file was created. -/
theorem empty_run_creates_empty_artifact_file :
    runExport tblC 5 none true (tblC.length + 1) (some ("5")) =
      some { exitCode := 0, ckpt := some ("5"), ckptWritten := false, transferCalls := 0,
             artifactOnDisk := some [], fetches := [(5, [])], total := 0, newLast := 5,
             dsErrored := false } ∧
    (runExport tblC 5 none true (tblC.length + 1) (some ("5"))).map
        (fun o => o.artifactOnDisk) ≠ some none := by decide

/-- C5 counterexample: with rows 1 and 2, batch size 1 and a
data-source error on the second query, the run fails with the
checkpoint unchanged, but the partially written artifact (header plus
the first row) is still on disk - it is not discarded as the claim
states. -/
theorem ds_error_artifact_retained_cex :
    runExport tblAB 1 (some 1) true 3 none = some outWD ∧
    outWD.exitCode = 1 ∧ outWD.ckpt = none ∧ outWD.dsErrored = true ∧
    outWD.artifactOnDisk = some ([Line.header (["ID", "DATA"]), Line.data rowA]) ∧
    outWD.artifactOnDisk ≠ none ∧ outWD.artifactOnDisk ≠ some [] := by decide

/-- C5 (amended): when a data-source error occurs during pagination the
run fails with exit code 1, nothing is transferred, and the checkpoint
file keeps its pre-run content, but the partially written artifact file
is retained on disk, not discarded. -/
theorem ds_error_run_fails_artifact_retained {table : List Row} {n : Nat} {ds : Option Nat}
    {tOk : Bool} {fuel : Nat} {ck : Option String} {out : RunOutcome}
    (h : runExport table n ds tOk fuel ck = some out) (hds : out.dsErrored = true) :
    out.exitCode = 1 ∧ out.ckpt = ck ∧ out.ckptWritten = false ∧
    out.transferCalls = 0 ∧ out.artifactOnDisk.isSome = true := by
  rcases hl : exportLoop table n ds fuel 0 (read_last_id ck) none [] [] 0 (read_last_id ck)
    with _ | lr
  · rw [runExport] at h
    rw [hl] at h
    simp at h
  · cases lr with
    | dsError st =>
      rw [runExport_of_loop_dsError hl] at h
      obtain rfl := Option.some.inj h
      exact ⟨rfl, rfl, rfl, rfl, rfl⟩
    | ok st =>
      rw [runExport_of_loop_ok hl] at h
      by_cases h0 : st.total = 0
      · rw [if_pos h0] at h
        obtain rfl := Option.some.inj h
        simp at hds
      · rw [if_neg h0] at h
        cases tOk with
        | false =>
          rw [if_neg (by simp)] at h
          obtain rfl := Option.some.inj h
          simp at hds
        | true =>
          rw [if_pos rfl] at h
          obtain rfl := Option.some.inj h
          simp at hds

/-- Witness for the amended C5 at the concrete failing run. -/
theorem ds_error_run_fails_artifact_retained_witness :
    runExport tblAB 1 (some 1) true 3 none = some outWD ∧ outWD.dsErrored = true ∧
    (outWD.exitCode = 1 ∧ outWD.ckpt = none ∧ outWD.ckptWritten = false ∧
     outWD.transferCalls = 0 ∧ outWD.artifactOnDisk.isSome = true) :=
  ⟨by decide, by decide,
    @ds_error_run_fails_artifact_retained tblAB 1 (some 1) true 3 none outWD
      (by decide) (by decide)⟩

/-- C6 counterexample: writing checkpoint 17 over a file holding 42 is
not atomic: write_last_id truncates the file before writing, and the
truncated intermediate state reads as 0, which is neither the old value
42 nor the new value 17 - an observer interleaved with the write can
see a value that is neither pre- nor post-write. -/
theorem checkpoint_write_not_atomic_cex :
    some (String.mk []) ∈ write_last_id_states (some ("42")) 17 ∧
    read_last_id (some ("42")) = 42 ∧
    read_last_id (some (String.mk [])) = 0 ∧
    ¬(read_last_id (some (String.mk [])) = read_last_id (some ("42")) ∨
      read_last_id (some (String.mk [])) = 17) := by decide

/-- C6 (amended): write_last_id replaces the checkpoint in place by
truncating the file and then writing str of the new value - there is no
write-then-rename step.  A reader interleaved with the write can
observe the pre-call content or the truncated empty file (which
read_last_id reports as 0); only the final state holds the new value,
which reads back exactly. -/
theorem checkpoint_write_truncate_then_write (prev : Option String) (m : Int) :
    (write_last_id_states prev m).head? = some prev ∧
    some (String.mk []) ∈ write_last_id_states prev m ∧
    (write_last_id_states prev m).getLast? = some (write_last_id m) ∧
    read_last_id (some (String.mk [])) = 0 ∧
    read_last_id (write_last_id m) = m := by
  refine ⟨rfl, ?_, rfl, rfl, read_last_id_write_last_id m⟩
  simp [write_last_id_states]

/-- C7: reading the checkpoint cannot fail the run: an absent file, an
empty file and unparseable content all read as 0, and content that
int() accepts reads as the persisted integer. -/
theorem read_last_id_total_default_zero :
    read_last_id none = 0 ∧
    read_last_id (some ("")) = 0 ∧
    (∀ s : String, pyInt? (pyStrip s) = none → read_last_id (some s) = 0) ∧
    (∀ s : String, ∀ i : Int, pyInt? (pyStrip s) = some i → read_last_id (some s) = i) := by
  refine ⟨rfl, rfl, ?_, ?_⟩
  · intro s hsp
    show (pyInt? (pyStrip s)).getD 0 = 0
    rw [hsp]
    rfl
  · intro s i hsp
    show (pyInt? (pyStrip s)).getD 0 = i
    rw [hsp]
    rfl

/-- Witness for C7 on garbage content and on a padded integer. -/
theorem read_last_id_total_default_zero_witness :
    pyInt? (pyStrip ("12abc")) = none ∧ read_last_id (some ("12abc")) = 0 ∧
    pyInt? (pyStrip ("  42  ")) = some 42 ∧ read_last_id (some ("  42  ")) = 42 :=
  ⟨by decide, read_last_id_total_default_zero.2.2.1 ("12abc") (by decide),
   by decide, read_last_id_total_default_zero.2.2.2 ("  42  ") 42 (by decide)⟩

/-- C8: in every run that exports at least one row, the artifact starts
with exactly one header line, written before all data lines and derived
from the key list of the first row of the first nonempty page. -/
theorem run_header_exactly_once_first {table : List Row} {n : Nat} {tOk : Bool}
    {ck : Option String} {out : RunOutcome}
    (hs : idsStrictMono table) (hn : 0 < n)
    (h : runExport table n none tOk (table.length + 1) ck = some out)
    (hpos : 0 < out.total) :
    ∃ r rest, rowsOf out = r :: rest ∧
      out.artifactOnDisk = some (Line.header r.keys :: (rowsOf out).map Line.data) ∧
      (Line.header r.keys :: (rowsOf out).map Line.data).filter Line.isHeader =
        [Line.header r.keys] := by
  rw [runExport_none_char hs hn tOk ck] at h
  obtain rfl := Option.some.inj h
  have hrows := pagesFrom_flatten hs hn (table.length + 1) (read_last_id ck)
    (Nat.lt_succ_of_le (List.length_filter_le _ _))
  have hpos' : 0 < (table.filter (fun x => decide (read_last_id ck < x.id))).length := hpos
  rcases hfl : table.filter (fun x => decide (read_last_id ck < x.id)) with _ | ⟨r, rest⟩
  · rw [hfl] at hpos'
    simp at hpos'
  · have hdata : ((r :: rest).map Line.data).filter Line.isHeader = [] := by
      rw [List.filter_eq_nil_iff]
      intro a ha
      rcases List.mem_map.mp ha with ⟨x, _, rfl⟩
      simp [Line.isHeader]
    refine ⟨r, rest, ?_, ?_, ?_⟩
    · show ((pagesFrom table n (table.length + 1) (read_last_id ck)).map
        Prod.snd).flatten = r :: rest
      rw [hrows, hfl]
    · show some (fileDelta none (table.filter (fun x => decide (read_last_id ck < x.id)))) =
        some (Line.header r.keys :: (((pagesFrom table n (table.length + 1)
          (read_last_id ck)).map Prod.snd).flatten).map Line.data)
      rw [hrows, hfl]
      simp [fileDelta]
    · show (Line.header r.keys :: (((pagesFrom table n (table.length + 1)
        (read_last_id ck)).map Prod.snd).flatten).map Line.data).filter Line.isHeader =
        [Line.header r.keys]
      rw [hrows, hfl]
      simp [List.filter_cons, Line.isHeader, hdata]

/-- Witness for C8 at the reference run. -/
theorem run_header_exactly_once_first_witness :
    idsStrictMono tblAB ∧ 0 < 1 ∧
    runExport tblAB 1 none true (tblAB.length + 1) none = some outW ∧ 0 < outW.total ∧
    (∃ r rest, rowsOf outW = r :: rest ∧
      outW.artifactOnDisk = some (Line.header r.keys :: (rowsOf outW).map Line.data) ∧
      (Line.header r.keys :: (rowsOf outW).map Line.data).filter Line.isHeader =
        [Line.header r.keys]) :=
  ⟨by decide, by decide, by decide, by decide,
    @run_header_exactly_once_first tblAB 1 true none outW
      (by decide) (by decide) (by decide) (by decide)⟩

/-- C9: over a finite table with strictly increasing identifiers and a
positive batch size, the export loop terminates within table.length + 1
queries, and it stops exactly at the first empty page: the final fetch
of the trace is the empty page and every earlier fetch is nonempty. -/
theorem export_loop_terminates_on_empty_page {table : List Row} {n : Nat} (lb0 : Int)
    (hs : idsStrictMono table) (hn : 0 < n) :
    ∃ st : LoopOut,
      exportLoop table n none (table.length + 1) 0 lb0 none [] [] 0 lb0 =
        some (LoopResult.ok st) ∧
      st.fetches.getLast? =
        some (lastAfter lb0 (table.filter (fun x => decide (lb0 < x.id))), []) ∧
      ∀ f ∈ st.fetches.dropLast, f.2 ≠ [] := by
  have hloop := exportLoop_none_eq hs hn (table.length + 1) lb0 0 none [] [] 0 lb0
    (Nat.lt_succ_of_le (List.length_filter_le _ _))
  simp only [List.nil_append, Nat.zero_add] at hloop
  obtain ⟨h1, h2⟩ := pagesFrom_last_empty hs hn (table.length + 1) lb0
    (Nat.lt_succ_of_le (List.length_filter_le _ _))
  exact ⟨_, hloop, h1, h2⟩

/-- Witness for C9 over tblAB starting at checkpoint 0. -/
theorem export_loop_terminates_on_empty_page_witness :
    idsStrictMono tblAB ∧ 0 < 1 ∧
    (∃ st : LoopOut,
      exportLoop tblAB 1 none (tblAB.length + 1) 0 0 none [] [] 0 0 =
        some (LoopResult.ok st) ∧
      st.fetches.getLast? =
        some (lastAfter 0 (tblAB.filter (fun x => decide (0 < x.id))), []) ∧
      ∀ f ∈ st.fetches.dropLast, f.2 ≠ []) :=
  ⟨by decide, by decide,
    @export_loop_terminates_on_empty_page tblAB 1 0 (by decide) (by decide)⟩

/-- C10: writing checkpoint value m and reading it back returns m, for
every non-negative integer m: the value is stored as its decimal text
and parsed back after stripping whitespace. -/
theorem checkpoint_roundtrip (m : Int) (_hm : 0 ≤ m) :
    read_last_id (write_last_id m) = m :=
  read_last_id_write_last_id m

/-- Witness for C10 at the spec's example value 12500. -/
theorem checkpoint_roundtrip_witness :
    0 ≤ (12500 : Int) ∧ read_last_id (write_last_id 12500) = 12500 :=
  ⟨by decide, checkpoint_roundtrip 12500 (by decide)⟩
